import Mathlib

/-!
# Yumee Signaling Server — verification of the core event handlers

Shallow embedding of `src/app.py` (Flask-SocketIO signaling server).

The mutable module-level state of the Python program is two dictionaries:

* `connected_users : {socket_id: {"name": display_name, "sid": socket_id}}`
* `active_rooms    : {room_id: [user1_sid, user2_sid]}`

Python `dict`s are modelled as association lists (`List (String × α)`),
with the usual dict operations: lookup finds the first matching key,
assignment replaces the value in place when the key is present (Python
dicts keep unique keys, so in every state built by the program the keys
are pairwise distinct), and `del` removes the entry.

Each `@socketio.on` handler becomes a pure function from the state and
the event data to the new state and the list of emitted events.  Flask's
`emit(...)` calls are collected in order into that list.  `request.sid`
is passed explicitly as the acting connection id.  `data.get(k)` is
modelled by `Option` arguments (`none` = key absent / `None`).  The
`try/except` wrappers are translated by making every Python expression
that can raise (`connected_users[sid]`, `[...][0]`) an explicit branch:
the branch where it raises produces exactly the state mutated so far
plus whatever the `except` clause emits.  `join_room`/`leave_room` only
touch transport-level room membership (inside the SocketIO collaborator,
not the module state) and are not part of the core state.
-/

namespace Yumee

/-- A value occurring in an emitted event payload. -/
inductive PVal where
  | str (s : String)
  | bool (b : Bool)
  | users (l : List (String × String))
  deriving DecidableEq, Repr

/-- Destination of an emitted event, as selected by the `emit` keyword
arguments in the source: default emit goes to the requesting sid
(`room=<sid>` is the same addressing), `room=<call room id>` goes to a
call room, `broadcast=True` goes to everyone, and
`broadcast=True, include_self=False` to everyone but the sender. -/
inductive Dest where
  | sid (s : String)
  | callRoom (r : String)
  | all
  | allExcept (s : String)
  deriving DecidableEq, Repr

/-- One `emit(event, payload, ...)` call performed by a handler. -/
structure Eemit where
  event : String
  dest : Dest
  payload : List (String × PVal)
  deriving DecidableEq, Repr

/-- The module-level mutable state of `app.py`: `connected_users`
(sid ↦ display name; the stored `sid` field duplicates the key and the
`joined_at` timestamp is never read by the core, so the value is just
the name) and `active_rooms` (room id ↦ list of participant sids). -/
structure ServerState where
  connected_users : List (String × String)
  active_rooms : List (String × List String)
  deriving DecidableEq, Repr

/-- Python `d[k]` / `d.get(k)`: the value at the first entry whose key
is `k`. -/
def dictLookup (d : List (String × α)) (k : String) : Option α :=
  (d.find? (fun p => p.1 = k)).map Prod.snd

/-- Python `k in d`. -/
def dictContains (d : List (String × α)) (k : String) : Bool :=
  d.any (fun p => p.1 = k)

/-- Python `d[k] = v`: replaces the value in place when the key is
present, otherwise appends a new entry. -/
def dictInsert (d : List (String × α)) (k : String) (v : α) : List (String × α) :=
  if dictContains d k then d.map (fun p => if p.1 = k then (k, v) else p)
  else d ++ [(k, v)]

/-- Python `del d[k]`. -/
def dictErase (d : List (String × α)) (k : String) : List (String × α) :=
  d.filter (fun p => p.1 ≠ k)

/-- Python `str(KeyError(k))`, the message carried by the `call_error`
emitted from an `except` clause that caught a registry `KeyError`. -/
def pyKeyErrorStr (k : String) : String := "'" ++ k ++ "'"

/-- Python's default whitespace class for `str.strip()` (the ASCII
whitespace characters; the exotic Unicode space code points Python also
strips are omitted as irrelevant to the embedded behaviour). -/
def pyIsSpace (c : Char) : Bool :=
  c = ' ' || c = '\t' || c = '\n' || c = '\x0d' || c = '\x0b' || c = '\x0c'

/-- Python `s.strip()`: removes leading and trailing whitespace from
the character (code point) sequence. -/
def pyStrip (s : String) : String :=
  ⟨((s.data.dropWhile pyIsSpace).reverse.dropWhile pyIsSpace).reverse⟩

/-- Python string comparison `a < b`: lexicographic comparison of the
two character (code point) sequences. -/
def charListLt : List Char → List Char → Bool
  | [], [] => false
  | [], _ :: _ => true
  | _ :: _, [] => false
  | c :: cs, d :: ds => if c < d then true else if d < c then false else charListLt cs ds

/-- Python `min(a, b)` on strings: `a` when `a <= b`, i.e. `b` exactly
when `b < a`. -/
def pyStrMin (a b : String) : String :=
  if charListLt b.data a.data then b else a

/-- Python `max(a, b)` on strings: `a` when `a >= b`, i.e. `b` exactly
when `a < b`. -/
def pyStrMax (a b : String) : String :=
  if charListLt a.data b.data then b else a

/-- `app.py` line 189: `room_id = f"call_{min(a, b)}_{max(a, b)}"`,
Python string `min`/`max` being lexicographic comparison. -/
def roomId (a b : String) : String :=
  "call_" ++ pyStrMin a b ++ "_" ++ pyStrMax a b

/-- The `user_list` payload built by `broadcast_user_list`. -/
def userListPayload (users : List (String × String)) : List (String × PVal) :=
  [("users", PVal.users (users.map (fun p => (p.2, p.1))))]

/-- `broadcast_user_list(to_sid=None)`: one `user_list` emit, to the
given sid when present, otherwise broadcast to all. -/
def broadcast_user_list (users : List (String × String)) (to_sid : Option String) : Eemit :=
  { event := "user_list"
    dest := match to_sid with
      | some s => Dest.sid s
      | none => Dest.all
    payload := userListPayload users }

/-- `handle_register` (lines 99–141): trims the proposed name, replaces
an empty or >30 character result by `"Anonymous"`, stores the entry
under the requesting sid, and emits `registered` (to the registrant),
`user_joined` (broadcast, not to self) and a broadcast `user_list`. -/
def handle_register (st : ServerState) (sid : String) (name? : Option String) :
    ServerState × List Eemit :=
  let stripped := pyStrip (name?.getD "Anonymous")
  let display_name := if stripped = "" ∨ stripped.length > 30 then "Anonymous" else stripped
  let users' := dictInsert st.connected_users sid display_name
  ({ st with connected_users := users' },
   [ { event := "registered", dest := Dest.sid sid
       payload := [("success", PVal.bool true), ("name", PVal.str display_name),
                   ("sid", PVal.str sid)] },
     { event := "user_joined", dest := Dest.allExcept sid
       payload := [("name", PVal.str display_name), ("sid", PVal.str sid)] },
     broadcast_user_list users' none ])

/-- `cleanup_room` (lines 415–422): removes the room entry when present
(`leave_room` only affects transport-level membership). Emits nothing. -/
def cleanup_room (st : ServerState) (room_id : String) : ServerState :=
  if dictContains st.active_rooms room_id then
    { st with active_rooms := dictErase st.active_rooms room_id }
  else st

/-- The `call_ended` event emitted to one remaining room member by
`cleanup_user_rooms` (lines 436–439). -/
def callEndedDisconnect (ename other : String) : Eemit :=
  { event := "call_ended", dest := Dest.sid other
    payload := [("ender_name", PVal.str ename), ("reason", PVal.str "disconnected")] }

/-- The `for room_id in rooms_to_cleanup` loop of `cleanup_user_rooms`
(lines 432–440): for each collected room id, re-reads the (still
present) room entry, emits `call_ended(reason=disconnected)` to every
other participant, and removes the room.  The `.getD []` arm models the
`active_rooms[room_id]` lookup; it is reachable only if the same key
occurred twice in `rooms_to_cleanup`, which unique dict keys rule out
(in Python it would raise `KeyError`). -/
def cleanupRoomsLoop (sid : String) : ServerState → List String → ServerState × List Eemit
  | st, [] => (st, [])
  | st, room_id :: rest =>
    let users := (dictLookup st.active_rooms room_id).getD []
    let other_users := users.filter (fun u => u ≠ sid)
    let ename := (dictLookup st.connected_users sid).getD "Someone"
    let emits := other_users.map (callEndedDisconnect ename)
    let st1 := cleanup_room st room_id
    let r := cleanupRoomsLoop sid st1 rest
    (r.1, emits ++ r.2)

/-- `cleanup_user_rooms` (lines 425–440): first collects the ids of all
rooms containing `sid`, then runs the cleanup loop over them. -/
def cleanup_user_rooms (st : ServerState) (sid : String) : ServerState × List Eemit :=
  let rooms_to_cleanup := (st.active_rooms.filter (fun p => p.2.contains sid)).map Prod.fst
  cleanupRoomsLoop sid st rooms_to_cleanup

/-- `handle_disconnect` (lines 76–96): when the sid is registered,
removes the registry entry, emits `user_left` (broadcast, not to self)
and a broadcast `user_list`, then cleans up the user's rooms; a sid not
in `connected_users` is a complete no-op. -/
def handle_disconnect (st : ServerState) (sid : String) : ServerState × List Eemit :=
  match dictLookup st.connected_users sid with
  | none => (st, [])
  | some user_name =>
    let users' := dictErase st.connected_users sid
    let st1 : ServerState := { st with connected_users := users' }
    let e1 : Eemit :=
      { event := "user_left", dest := Dest.allExcept sid
        payload := [("name", PVal.str user_name), ("sid", PVal.str sid)] }
    let e2 := broadcast_user_list users' none
    let r := cleanup_user_rooms st1 sid
    (r.1, [e1, e2] ++ r.2)

/-- `handle_call_user` (lines 170–218).  Guard order as in the source:
absent or unregistered target → `call_error "User is offline"`; caller
equal to target → `call_error "Cannot call yourself"`; then the room is
inserted into `active_rooms`, and only afterwards is
`connected_users[caller_sid]` read — when the caller is not registered
that raises `KeyError`, the `except` clause emits the `call_error`, and
the already-performed room insertion persists.  On full success the
target gets `incoming_call` and the caller `call_initiated`. -/
def handle_call_user (st : ServerState) (caller_sid : String) (target? : Option String) :
    ServerState × List Eemit :=
  let offlineErr : Eemit :=
    { event := "call_error", dest := Dest.sid caller_sid
      payload := [("error", PVal.str "User is offline")] }
  match target? with
  | none => (st, [offlineErr])
  | some target_sid =>
    match dictLookup st.connected_users target_sid with
    | none => (st, [offlineErr])
    | some target_name =>
      if caller_sid = target_sid then
        (st, [{ event := "call_error", dest := Dest.sid caller_sid
                payload := [("error", PVal.str "Cannot call yourself")] }])
      else
        let room_id := roomId caller_sid target_sid
        let st' : ServerState :=
          { st with active_rooms := dictInsert st.active_rooms room_id [caller_sid, target_sid] }
        match dictLookup st.connected_users caller_sid with
        | none =>
          (st', [{ event := "call_error", dest := Dest.sid caller_sid
                   payload := [("error", PVal.str (pyKeyErrorStr caller_sid))] }])
        | some caller_name =>
          (st',
           [ { event := "incoming_call", dest := Dest.sid target_sid
               payload := [("caller_sid", PVal.str caller_sid),
                           ("caller_name", PVal.str caller_name),
                           ("room_id", PVal.str room_id)] },
             { event := "call_initiated", dest := Dest.sid caller_sid
               payload := [("target_sid", PVal.str target_sid),
                           ("target_name", PVal.str target_name),
                           ("room_id", PVal.str room_id)] } ])

/-- `handle_accept_call` (lines 221–249).  An absent or unknown room id
emits `call_error "Call no longer exists"`; otherwise
`[u for u in room_users if u != accepter_sid][0]` is evaluated (were the
filtered list empty, the `[0]` would raise `IndexError`, and the
`except` clause would emit its message as a `call_error`); then
`connected_users[accepter_sid]` is read — a `KeyError` when the accepter
is not registered, again surfacing as `call_error`.  On success a single
`call_accepted` is emitted to the call room.  No state is modified. -/
def handle_accept_call (st : ServerState) (accepter_sid : String) (room_id? : Option String) :
    ServerState × List Eemit :=
  let notExists : Eemit :=
    { event := "call_error", dest := Dest.sid accepter_sid
      payload := [("error", PVal.str "Call no longer exists")] }
  match room_id? with
  | none => (st, [notExists])
  | some room_id =>
    match dictLookup st.active_rooms room_id with
    | none => (st, [notExists])
    | some room_users =>
      match room_users.filter (fun u => u ≠ accepter_sid) with
      | [] =>
        (st, [{ event := "call_error", dest := Dest.sid accepter_sid
                payload := [("error", PVal.str "list index out of range")] }])
      | _caller_sid :: _ =>
        match dictLookup st.connected_users accepter_sid with
        | none =>
          (st, [{ event := "call_error", dest := Dest.sid accepter_sid
                  payload := [("error", PVal.str (pyKeyErrorStr accepter_sid))] }])
        | some accepter_name =>
          (st, [{ event := "call_accepted", dest := Dest.callRoom room_id
                  payload := [("accepter_sid", PVal.str accepter_sid),
                              ("accepter_name", PVal.str accepter_name),
                              ("room_id", PVal.str room_id)] }])

/-- `handle_offer` (lines 305–325): relays the opaque offer to the
target only, together with the sender's sid and display name; when the
guard fails nothing is emitted.  The sender-name read
`connected_users[request.sid]` raises `KeyError` for an unregistered
sender; the `except` clause only logs, so that case also emits nothing.
The handler never modifies the state, so it returns only the emits. -/
def handle_offer (st : ServerState) (sender_sid : String) (target? : Option String)
    (offer : PVal) : List Eemit :=
  match target? with
  | none => []
  | some target_sid =>
    if target_sid ≠ "" ∧ dictContains st.connected_users target_sid then
      match dictLookup st.connected_users sender_sid with
      | none => []
      | some sender_name =>
        [{ event := "offer", dest := Dest.sid target_sid
           payload := [("offer", offer), ("sender_sid", PVal.str sender_sid),
                       ("sender_name", PVal.str sender_name)] }]
    else []

/-- `handle_answer` (lines 327–345): relays the opaque answer to the
target only, together with the sender's sid (and, unlike `offer`,
no display name); when the guard fails nothing is emitted. -/
def handle_answer (st : ServerState) (sender_sid : String) (target? : Option String)
    (answer : PVal) : List Eemit :=
  match target? with
  | none => []
  | some target_sid =>
    if target_sid ≠ "" ∧ dictContains st.connected_users target_sid then
      [{ event := "answer", dest := Dest.sid target_sid
         payload := [("answer", answer), ("sender_sid", PVal.str sender_sid)] }]
    else []

/-- `handle_ice_candidate` (lines 348–366): relays the opaque candidate
to the target only, together with the sender's sid (no display name);
when the guard fails nothing is emitted. -/
def handle_ice_candidate (st : ServerState) (sender_sid : String) (target? : Option String)
    (candidate : PVal) : List Eemit :=
  match target? with
  | none => []
  | some target_sid =>
    if target_sid ≠ "" ∧ dictContains st.connected_users target_sid then
      [{ event := "ice_candidate", dest := Dest.sid target_sid
         payload := [("candidate", candidate), ("sender_sid", PVal.str sender_sid)] }]
    else []

/-- `handle_send_message` (lines 371–410): drops empty-after-strip or
over-1000-character messages; with a truthy, registered target emits a
private `receive_message` to the target and an echo (sender name
annotated `"(to <target>)"`) to the sender; in every other case —
including a non-empty target sid that is *not* registered — falls into
the `else` branch and broadcasts the message to all.  Never modifies
the state. -/
def handle_send_message (st : ServerState) (sender_sid : String) (target? : Option String)
    (message? : Option String) : List Eemit :=
  let message := pyStrip (message?.getD "")
  if message = "" ∨ message.length > 1000 then []
  else
    let sender_name := (dictLookup st.connected_users sender_sid).getD "Anonymous"
    let privateCase : String → String → List Eemit := fun target_sid target_name =>
      [ { event := "receive_message", dest := Dest.sid target_sid
          payload := [("sender_sid", PVal.str sender_sid),
                      ("sender_name", PVal.str sender_name),
                      ("message", PVal.str message), ("private", PVal.bool true)] },
        { event := "receive_message", dest := Dest.sid sender_sid
          payload := [("sender_sid", PVal.str sender_sid),
                      ("sender_name", PVal.str (sender_name ++ " (to " ++ target_name ++ ")")),
                      ("message", PVal.str message), ("private", PVal.bool true)] } ]
    let broadcastCase : List Eemit :=
      [{ event := "receive_message", dest := Dest.all
         payload := [("sender_sid", PVal.str sender_sid),
                     ("sender_name", PVal.str sender_name),
                     ("message", PVal.str message), ("private", PVal.bool false)] }]
    match target? with
    | none => broadcastCase
    | some target_sid =>
      if target_sid ≠ "" then
        match dictLookup st.connected_users target_sid with
        | some target_name => privateCase target_sid target_name
        | none => broadcastCase
      else broadcastCase

/-- Shape of one `active_rooms` entry as the program creates them
(line 195 together with line 189): the value is the two-element list
`[caller, target]` with distinct sids, and the key is the symmetric
room id of that pair. -/
def roomEntryWF (p : String × List String) : Bool :=
  match p.2 with
  | [u, v] => u != v && p.1 == roomId u v
  | _ => false

/-- Invariant of every state reachable from the empty initial state:
both dicts have pairwise-distinct keys (Python dicts cannot hold
duplicate keys), and every room entry has the created shape. -/
def StateWF (st : ServerState) : Prop :=
  (st.connected_users.map Prod.fst).Nodup ∧
  (st.active_rooms.map Prod.fst).Nodup ∧
  ∀ p ∈ st.active_rooms, roomEntryWF p = true

instance : DecidablePred StateWF := fun st => by
  unfold StateWF; infer_instance

/-! ## Dictionary lemmas -/

theorem dictLookup_cons (p : String × α) (d : List (String × α)) (k : String) :
    dictLookup (p :: d) k = if p.1 = k then some p.2 else dictLookup d k := by
  by_cases h : p.1 = k <;> simp [dictLookup, List.find?_cons, h]

theorem dictContains_cons (p : String × α) (d : List (String × α)) (k : String) :
    dictContains (p :: d) k = (decide (p.1 = k) || dictContains d k) := by
  simp [dictContains]

theorem dictContains_eq_isSome (d : List (String × α)) (k : String) :
    dictContains d k = (dictLookup d k).isSome := by
  induction d with
  | nil => rfl
  | cons p d ih =>
    by_cases h : p.1 = k <;>
      simp [dictContains_cons, dictLookup_cons, h, ih]

theorem dictContains_eq_false (d : List (String × α)) (k : String) :
    dictContains d k = false ↔ k ∉ d.map Prod.fst := by
  induction d with
  | nil => simp [dictContains]
  | cons p d ih =>
    simp only [dictContains_cons, Bool.or_eq_false_iff, decide_eq_false_iff_not,
      List.map_cons, List.mem_cons, ih]
    constructor
    · rintro ⟨h1, h2⟩ (h | h)
      · exact h1 h.symm
      · exact h2 h
    · intro h
      exact ⟨fun hc => h (Or.inl hc.symm), fun hc => h (Or.inr hc)⟩

theorem dictLookup_dictErase_self (d : List (String × α)) (k : String) :
    dictLookup (dictErase d k) k = none := by
  induction d with
  | nil => rfl
  | cons p d ih =>
    by_cases h : p.1 = k
    · simpa [dictErase, List.filter_cons, h] using ih
    · simpa [dictErase, List.filter_cons, h, dictLookup_cons] using ih

theorem dictErase_cons_of_eq (p : String × α) (d : List (String × α)) (k : String)
    (hp : p.1 = k) : dictErase (p :: d) k = dictErase d k := by
  simp [dictErase, List.filter_cons, hp]

theorem dictErase_cons_of_ne (p : String × α) (d : List (String × α)) (k : String)
    (hp : p.1 ≠ k) : dictErase (p :: d) k = p :: dictErase d k := by
  simp [dictErase, List.filter_cons, hp]

theorem dictLookup_dictErase_ne (d : List (String × α)) (k k' : String) (h : k' ≠ k) :
    dictLookup (dictErase d k) k' = dictLookup d k' := by
  induction d with
  | nil => rfl
  | cons p d ih =>
    by_cases hp : p.1 = k
    · have hp' : p.1 ≠ k' := fun hc => h (hc ▸ hp)
      rw [dictErase_cons_of_eq p d k hp, ih, dictLookup_cons, if_neg hp']
    · rw [dictErase_cons_of_ne p d k hp, dictLookup_cons, dictLookup_cons, ih]

theorem dictLookup_replace_self (d : List (String × α)) (k : String) (v : α)
    (h : dictContains d k = true) :
    dictLookup (d.map (fun p => if p.1 = k then (k, v) else p)) k = some v := by
  induction d with
  | nil => simp [dictContains] at h
  | cons p d ih =>
    by_cases hp : p.1 = k
    · simp [hp, dictLookup_cons]
    · rw [dictContains_cons] at h
      simp only [decide_eq_false hp, Bool.false_or] at h
      simp only [List.map_cons, if_neg hp]
      rw [dictLookup_cons, if_neg hp]
      exact ih h

theorem dictLookup_append_single (d : List (String × α)) (k : String) (v : α)
    (h : dictContains d k = false) :
    dictLookup (d ++ [(k, v)]) k = some v := by
  induction d with
  | nil => simp [dictLookup_cons]
  | cons p d ih =>
    rw [dictContains_cons, Bool.or_eq_false_iff] at h
    obtain ⟨h1, h2⟩ := h
    have hp : p.1 ≠ k := by simpa using h1
    rw [List.cons_append, dictLookup_cons, if_neg hp]
    exact ih h2

theorem dictLookup_dictInsert_self (d : List (String × α)) (k : String) (v : α) :
    dictLookup (dictInsert d k v) k = some v := by
  unfold dictInsert
  by_cases h : dictContains d k = true
  · simp only [h, if_true]
    exact dictLookup_replace_self d k v h
  · rw [Bool.not_eq_true] at h
    simp only [h, Bool.false_eq_true, if_false]
    exact dictLookup_append_single d k v h

theorem dictInsert_keys_of_contains (d : List (String × α)) (k : String) (v : α)
    (h : dictContains d k = true) :
    (dictInsert d k v).map Prod.fst = d.map Prod.fst := by
  unfold dictInsert
  simp only [h, if_true, List.map_map]
  apply List.map_congr_left
  intro p _
  by_cases hp : p.1 = k <;> simp [hp]

theorem dictInsert_keys_of_not_contains (d : List (String × α)) (k : String) (v : α)
    (h : dictContains d k = false) :
    (dictInsert d k v).map Prod.fst = d.map Prod.fst ++ [k] := by
  unfold dictInsert
  simp [h]

theorem dictInsert_length_of_contains (d : List (String × α)) (k : String) (v : α)
    (h : dictContains d k = true) :
    (dictInsert d k v).length = d.length := by
  unfold dictInsert
  simp [h]

/-! ## Helper lemmas about the handlers -/

theorem charListLt_asymm : ∀ (x y : List Char),
    charListLt x y = true → charListLt y x = false
  | [], [] => fun h => by simp [charListLt] at h
  | [], _ :: _ => fun _ => rfl
  | _ :: _, [] => fun h => by simp [charListLt] at h
  | c :: cs, d :: ds => fun h => by
    simp only [charListLt] at h ⊢
    by_cases hcd : c < d
    · rw [if_neg (lt_asymm hcd), if_pos hcd]
    · rw [if_neg hcd] at h
      by_cases hdc : d < c
      · rw [if_pos hdc] at h
        exact Bool.noConfusion h
      · rw [if_neg hdc] at h
        rw [if_neg hdc, if_neg hcd]
        exact charListLt_asymm cs ds h

theorem charListLt_conn : ∀ (x y : List Char),
    charListLt x y = false → charListLt y x = false → x = y
  | [], [] => fun _ _ => rfl
  | [], _ :: _ => fun h _ => by simp [charListLt] at h
  | _ :: _, [] => fun _ h => by simp [charListLt] at h
  | c :: cs, d :: ds => fun h1 h2 => by
    simp only [charListLt] at h1 h2
    by_cases hcd : c < d
    · rw [if_pos hcd] at h1
      exact Bool.noConfusion h1
    · by_cases hdc : d < c
      · rw [if_pos hdc] at h2
        exact Bool.noConfusion h2
      · rw [if_neg hcd, if_neg hdc] at h1
        rw [if_neg hdc, if_neg hcd] at h2
        have hc : c = d := le_antisymm (not_lt.mp hdc) (not_lt.mp hcd)
        rw [hc, charListLt_conn cs ds h1 h2]

theorem string_data_eq (s t : String) (h : s.data = t.data) : s = t := by
  cases s
  cases t
  exact congrArg String.mk h

theorem pyStrMin_comm (a b : String) : pyStrMin a b = pyStrMin b a := by
  unfold pyStrMin
  by_cases h1 : charListLt b.data a.data = true
  · rw [if_pos h1, if_neg (by simp [charListLt_asymm _ _ h1])]
  · rw [Bool.not_eq_true] at h1
    rw [if_neg (by simp [h1])]
    by_cases h2 : charListLt a.data b.data = true
    · rw [if_pos h2]
    · rw [Bool.not_eq_true] at h2
      rw [if_neg (by simp [h2])]
      exact string_data_eq a b (charListLt_conn _ _ h2 h1)

theorem pyStrMax_comm (a b : String) : pyStrMax a b = pyStrMax b a := by
  unfold pyStrMax
  by_cases h1 : charListLt a.data b.data = true
  · rw [if_pos h1, if_neg (by simp [charListLt_asymm _ _ h1])]
  · rw [Bool.not_eq_true] at h1
    rw [if_neg (by simp [h1])]
    by_cases h2 : charListLt b.data a.data = true
    · rw [if_pos h2]
    · rw [Bool.not_eq_true] at h2
      rw [if_neg (by simp [h2])]
      exact (string_data_eq b a (charListLt_conn _ _ h2 h1)).symm

theorem roomId_comm (a b : String) : roomId a b = roomId b a := by
  unfold roomId
  rw [pyStrMin_comm, pyStrMax_comm]

theorem cleanup_room_connected_users (st : ServerState) (r : String) :
    (cleanup_room st r).connected_users = st.connected_users := by
  unfold cleanup_room
  split <;> rfl

theorem cleanupRoomsLoop_connected_users (sid : String) (ks : List String) (st : ServerState) :
    (cleanupRoomsLoop sid st ks).1.connected_users = st.connected_users := by
  induction ks generalizing st with
  | nil => rfl
  | cons k ks ih =>
    simp only [cleanupRoomsLoop]
    rw [ih, cleanup_room_connected_users]

theorem handle_disconnect_of_lookup_none (st : ServerState) (sid : String)
    (h : dictLookup st.connected_users sid = none) :
    handle_disconnect st sid = (st, []) := by
  simp only [handle_disconnect, h]

theorem handle_disconnect_connected_users_of_some (st : ServerState) (sid : String)
    (n : String) (h : dictLookup st.connected_users sid = some n) :
    (handle_disconnect st sid).1.connected_users = dictErase st.connected_users sid := by
  simp only [handle_disconnect, h, cleanup_user_rooms]
  rw [cleanupRoomsLoop_connected_users]

theorem cleanup_room_active_rooms (st : ServerState) (k : String) :
    (cleanup_room st k).active_rooms = dictErase st.active_rooms k := by
  unfold cleanup_room
  split
  · rfl
  · rename_i h
    rw [Bool.not_eq_true, dictContains_eq_false] at h
    show st.active_rooms = dictErase st.active_rooms k
    unfold dictErase
    refine (List.filter_eq_self.mpr ?_).symm
    intro p hp
    simp only [decide_eq_true_eq]
    exact fun hc => h (hc ▸ List.mem_map_of_mem Prod.fst hp)

theorem dictLookup_of_mem_nodup (d : List (String × α)) (hnd : (d.map Prod.fst).Nodup)
    {k : String} {v : α} (h : (k, v) ∈ d) : dictLookup d k = some v := by
  induction d with
  | nil => simp at h
  | cons p rest ih =>
    rw [List.map_cons, List.nodup_cons] at hnd
    rcases List.mem_cons.mp h with h | h
    · rw [← h, dictLookup_cons, if_pos rfl]
    · have hp : p.1 ≠ k := fun hc =>
        (hc ▸ hnd.1) (List.mem_map_of_mem Prod.fst h)
      rw [dictLookup_cons, if_neg hp]
      exact ih hnd.2 h

theorem dictLookup_filter_excluded (d : List (String × α)) (ks : List String) (k : String)
    (hk : k ∈ ks) : dictLookup (d.filter (fun p => ¬ p.1 ∈ ks)) k = none := by
  induction d with
  | nil => rfl
  | cons p rest ih =>
    rw [List.filter_cons]
    by_cases hp : p.1 ∈ ks
    · rw [if_neg (by simp [hp])]
      exact ih
    · rw [if_pos (by simp [hp]), dictLookup_cons, if_neg (fun hc => hp (by rw [hc]; exact hk))]
      exact ih

theorem roomEntryWF_shape (p : String × List String) (h : roomEntryWF p = true) :
    ∃ u v, p.2 = [u, v] ∧ u ≠ v ∧ p.1 = roomId u v := by
  rcases p with ⟨k, l⟩
  rcases l with _ | ⟨u, _ | ⟨v, _ | ⟨w, rest⟩⟩⟩
  · simp [roomEntryWF] at h
  · simp [roomEntryWF] at h
  · simp only [roomEntryWF] at h
    rw [Bool.and_eq_true, bne_iff_ne, beq_iff_eq] at h
    exact ⟨u, v, rfl, h.1, h.2⟩
  · simp [roomEntryWF] at h

theorem roomEntry_key_of_pair (p : String × List String) (hwf : roomEntryWF p = true)
    {a b : String} (ha : a ∈ p.2) (hb : b ∈ p.2) (hab : a ≠ b) :
    p.1 = roomId a b := by
  obtain ⟨u, v, hl, huv, hk⟩ := roomEntryWF_shape p hwf
  rw [hl] at ha hb
  have ha' : a = u ∨ a = v := by simpa using ha
  have hb' : b = u ∨ b = v := by simpa using hb
  rcases ha' with rfl | rfl
  · rcases hb' with rfl | rfl
    · exact absurd rfl hab
    · exact hk
  · rcases hb' with rfl | rfl
    · rw [hk, roomId_comm]
    · exact absurd rfl hab.symm

theorem eq_singleton_of_unique_key (l : List (String × List String)) (k : String)
    (v : List String) (hmem : (k, v) ∈ l) (hk : ∀ p ∈ l, p.1 = k)
    (hnd : (l.map Prod.fst).Nodup) : l = [(k, v)] := by
  cases l with
  | nil => simp at hmem
  | cons p rest =>
    have hrest : rest = [] := by
      cases rest with
      | nil => rfl
      | cons q rest' =>
        rw [List.map_cons, List.nodup_cons] at hnd
        exfalso
        apply hnd.1
        rw [hk p (List.mem_cons_self _ _),
            ← hk q (List.mem_cons_of_mem _ (List.mem_cons_self _ _))]
        exact List.mem_map_of_mem Prod.fst (List.mem_cons_self _ _)
    subst hrest
    have h := List.mem_singleton.mp hmem
    rw [← h]

theorem filter_flatten_map {β : Type} (g : β → List Eemit) (q : Eemit → Bool)
    (L : List β) :
    ((L.map g).flatten).filter q = (L.map (fun p => (g p).filter q)).flatten := by
  induction L with
  | nil => rfl
  | cons p L ih => simp [List.flatten_cons, List.filter_append, ih]

theorem flatten_map_support {β : Type} (h : β → List Eemit) (Pb : β → Bool) :
    ∀ L : List β, (∀ p ∈ L, Pb p = false → h p = []) →
      (L.map h).flatten = ((L.filter Pb).map h).flatten := by
  intro L
  induction L with
  | nil => intro _; rfl
  | cons p L ih =>
    intro hz
    rw [List.map_cons, List.flatten_cons, List.filter_cons]
    by_cases hp : Pb p = true
    · rw [if_pos hp, List.map_cons, List.flatten_cons,
        ih (fun x hx => hz x (List.mem_cons_of_mem _ hx))]
    · rw [Bool.not_eq_true] at hp
      rw [if_neg (by simp [hp]), hz p (List.mem_cons_self _ _) hp, List.nil_append,
        ih (fun x hx => hz x (List.mem_cons_of_mem _ hx))]

theorem cleanupRoomsLoop_spec (sid : String) :
    ∀ (ks : List String) (st : ServerState), ks.Nodup →
      (cleanupRoomsLoop sid st ks).1.active_rooms =
          st.active_rooms.filter (fun p => ¬ p.1 ∈ ks) ∧
      (cleanupRoomsLoop sid st ks).2 =
        (ks.map (fun k =>
          (((dictLookup st.active_rooms k).getD []).filter (fun u => u ≠ sid)).map
            (callEndedDisconnect ((dictLookup st.connected_users sid).getD "Someone")))).flatten := by
  intro ks
  induction ks with
  | nil =>
    intro st _
    refine ⟨?_, rfl⟩
    show st.active_rooms = _
    refine (List.filter_eq_self.mpr ?_).symm
    intro p _
    simp
  | cons k rest ih =>
    intro st hnd
    rw [List.nodup_cons] at hnd
    obtain ⟨ih1, ih2⟩ := ih (cleanup_room st k) hnd.2
    constructor
    · simp only [cleanupRoomsLoop]
      rw [ih1, cleanup_room_active_rooms]
      unfold dictErase
      rw [List.filter_filter]
      refine List.filter_congr ?_
      intro p _
      simp [List.mem_cons, not_or, Bool.and_comm]
    · simp only [cleanupRoomsLoop]
      rw [ih2, List.map_cons, List.flatten_cons]
      congr 1
      congr 1
      refine List.map_congr_left ?_
      intro x hx
      rw [cleanup_room_active_rooms, cleanup_room_connected_users,
          dictLookup_dictErase_ne _ _ _ (fun hc => hnd.1 (by rw [hc] at hx; exact hx))]

theorem filter_callEnded_ks (st : ServerState) (a b ename : String)
    (hndr : (st.active_rooms.map Prod.fst).Nodup)
    (hshape : ∀ p ∈ st.active_rooms, roomEntryWF p = true)
    (rid : String) (ps : List String)
    (hroom : (rid, ps) ∈ st.active_rooms) (hain : a ∈ ps) (hbin : b ∈ ps) (hba : b ≠ a) :
    ((((st.active_rooms.filter (fun p => p.2.contains a)).map Prod.fst).map (fun k =>
        (((dictLookup st.active_rooms k).getD []).filter (fun u => u ≠ a)).map
          (callEndedDisconnect ename))).flatten).filter
      (fun e => e.event == "call_ended" && e.dest == Dest.sid b) =
      [callEndedDisconnect ename b] := by
  rw [List.map_map]
  have hcongr : ∀ p ∈ st.active_rooms.filter (fun p => p.2.contains a),
      ((fun k => (((dictLookup st.active_rooms k).getD []).filter (fun u => u ≠ a)).map
        (callEndedDisconnect ename)) ∘ Prod.fst) p =
      (fun p => (p.2.filter (fun u => u ≠ a)).map (callEndedDisconnect ename)) p := by
    intro p hp
    have hlk : dictLookup st.active_rooms p.1 = some p.2 :=
      dictLookup_of_mem_nodup _ hndr (show (p.1, p.2) ∈ st.active_rooms from
        List.mem_of_mem_filter hp)
    simp only [Function.comp_apply, hlk, Option.getD_some]
  rw [List.map_congr_left hcongr]
  rw [filter_flatten_map]
  have hz : ∀ p ∈ st.active_rooms.filter (fun p => p.2.contains a),
      (fun p => p.2.contains b) p = false →
      (fun p => ((p.2.filter (fun u => u ≠ a)).map (callEndedDisconnect ename)).filter
        (fun e => e.event == "call_ended" && e.dest == Dest.sid b)) p = [] := by
    intro p _ hPb
    have hbn : b ∉ p.2 := fun hbm => Bool.noConfusion
      ((List.elem_eq_true_of_mem hbm).symm.trans hPb)
    refine List.filter_eq_nil_iff.mpr ?_
    intro e he
    obtain ⟨u, hu, rfl⟩ := List.mem_map.mp he
    intro hqe
    rw [Bool.and_eq_true] at hqe
    have hub : u = b := by
      have h2 := hqe.2
      simp only [callEndedDisconnect] at h2
      simp [beq_eq_decide] at h2
      exact h2
    subst hub
    exact hbn (List.mem_of_mem_filter hu)
  rw [flatten_map_support _ _ _ hz]
  have hridkey : rid = roomId a b :=
    roomEntry_key_of_pair (rid, ps) (hshape _ hroom) hain hbin (fun h => hba h.symm)
  have hsingle : (st.active_rooms.filter (fun p => p.2.contains a)).filter
      (fun p => p.2.contains b) = [(rid, ps)] := by
    apply eq_singleton_of_unique_key
    · exact List.mem_filter.mpr ⟨List.mem_filter.mpr ⟨hroom, List.elem_eq_true_of_mem hain⟩,
        List.elem_eq_true_of_mem hbin⟩
    · intro p hp
      have hpd : p ∈ st.active_rooms := List.mem_of_mem_filter (List.mem_of_mem_filter hp)
      have hpa : a ∈ p.2 := List.mem_of_elem_eq_true (List.mem_filter.mp
        (List.mem_of_mem_filter hp)).2
      have hpb : b ∈ p.2 := List.mem_of_elem_eq_true (List.mem_filter.mp hp).2
      rw [roomEntry_key_of_pair p (hshape _ hpd) hpa hpb (fun h => hba h.symm)]
      exact hridkey.symm
    · exact (((List.filter_sublist _).trans (List.filter_sublist _)).map Prod.fst).nodup hndr
  rw [hsingle]
  simp only [List.map_cons, List.map_nil, List.flatten_cons, List.flatten_nil, List.append_nil]
  obtain ⟨u, v, hps0, huv, _⟩ := roomEntryWF_shape (rid, ps) (hshape _ hroom)
  have hps : ps = [u, v] := hps0
  subst hps
  have ha' : a = u ∨ a = v := by simpa using hain
  have hb' : b = u ∨ b = v := by simpa using hbin
  rcases ha' with rfl | rfl
  · rcases hb' with rfl | rfl
    · exact absurd rfl hba
    · simp [List.filter_cons, List.filter_nil, hba, huv, callEndedDisconnect, beq_eq_decide]
  · rcases hb' with rfl | rfl
    · simp [List.filter_cons, List.filter_nil, hba, huv, callEndedDisconnect, beq_eq_decide]
    · exact absurd rfl hba

/-! ## Claim theorems -/

/-- **C8** (confirmed): session id derivation is symmetric — for every
pair of connection ids `(a, b)`, the room id computed at `app.py`
line 189 satisfies `roomId a b = roomId b a`, so the identifier produced
when `a` calls `b` is the same one produced when `b` calls `a`. -/
theorem c8_sessionId_symmetric (a b : String) : roomId a b = roomId b a :=
  roomId_comm a b

/-- **C7** (confirmed): disconnect processing is idempotent — running
`handle_disconnect` a second time for the same sid leaves the state
exactly as after the first run and emits nothing, and a disconnect for a
sid that is not registered is a complete no-op (same state, no emits),
not an error. -/
theorem c7_disconnect_idempotent (st : ServerState) (sid : String) :
    (handle_disconnect (handle_disconnect st sid).1 sid).1 = (handle_disconnect st sid).1 ∧
    (handle_disconnect (handle_disconnect st sid).1 sid).2 = [] ∧
    (dictLookup st.connected_users sid = none → handle_disconnect st sid = (st, [])) := by
  rcases h : dictLookup st.connected_users sid with _ | n
  · rw [handle_disconnect_of_lookup_none st sid h]
    rw [handle_disconnect_of_lookup_none st sid h]
    exact ⟨rfl, rfl, fun _ => rfl⟩
  · have h2 : dictLookup (handle_disconnect st sid).1.connected_users sid = none := by
      rw [handle_disconnect_connected_users_of_some st sid n h]
      exact dictLookup_dictErase_self _ _
    rw [handle_disconnect_of_lookup_none _ sid h2]
    exact ⟨rfl, rfl, fun hc => (Option.some_ne_none n hc).elim⟩

/-- Witness for C7 at a concrete input: a disconnect for the
never-registered sid `"zzz"` is a no-op on a concrete state. -/
theorem c7_disconnect_idempotent_witness :
    handle_disconnect ⟨[("a", "Alice")], []⟩ "zzz" = (⟨[("a", "Alice")], []⟩, []) :=
  (c7_disconnect_idempotent ⟨[("a", "Alice")], []⟩ "zzz").2.2 (by decide)

/-- **C9** (confirmed): `handle_register` stores (and reports in the
`registered` event) the whitespace-trimmed name when the trimmed result
has between 1 and 30 characters, and `"Anonymous"` otherwise; and
registering an already-registered sid overwrites the existing entry
(key set unchanged hence still duplicate-free, registry size unchanged)
rather than creating a second one. -/
theorem c9_register_normalizes (st : ServerState) (sid name : String)
    (hnd : (st.connected_users.map Prod.fst).Nodup) :
    dictLookup (handle_register st sid (some name)).1.connected_users sid =
      some (if (pyStrip name) = "" ∨ (pyStrip name).length > 30 then "Anonymous" else (pyStrip name)) ∧
    (∃ e ∈ (handle_register st sid (some name)).2, e.event = "registered" ∧
      ("name", PVal.str (if (pyStrip name) = "" ∨ (pyStrip name).length > 30 then "Anonymous"
          else (pyStrip name))) ∈ e.payload) ∧
    ((handle_register st sid (some name)).1.connected_users.map Prod.fst).Nodup ∧
    (dictContains st.connected_users sid = true →
      (handle_register st sid (some name)).1.connected_users.length =
        st.connected_users.length) := by
  refine ⟨?_, ?_, ?_, ?_⟩
  · exact dictLookup_dictInsert_self _ _ _
  · exact ⟨_, List.mem_cons_self _ _, rfl,
      List.mem_cons_of_mem _ (List.mem_cons_self _ _)⟩
  · show (dictInsert st.connected_users sid _ |>.map Prod.fst).Nodup
    by_cases h : dictContains st.connected_users sid = true
    · rw [dictInsert_keys_of_contains _ _ _ h]
      exact hnd
    · rw [Bool.not_eq_true] at h
      rw [dictInsert_keys_of_not_contains _ _ _ h, List.nodup_append]
      refine ⟨hnd, List.nodup_singleton _, ?_⟩
      intro x hx hmem
      rw [dictContains_eq_false] at h
      simp only [List.mem_singleton] at hmem
      subst hmem
      exact h hx
  · intro h
    exact dictInsert_length_of_contains _ _ _ h

/-- **C6** (confirmed): when a registered participant `a` of a session
disconnects, the other participant `b` receives exactly one
`call_ended` event — the emits filtered to call_ended events addressed
to `b` are exactly the one event `callEndedDisconnect "Someone" b`,
which carries `reason = "disconnected"` (the ender name degrades to
`"Someone"` because the registry entry of `a` is removed before the
room cleanup reads it) — the session is removed from the table, and
every subsequent `accept_call` naming that session id yields the
session-not-found `call_error "Call no longer exists"`. -/
theorem c6_disconnect_ends_session (st : ServerState) (a b na rid : String)
    (ps : List String) (hwf : StateWF st)
    (hreg : dictLookup st.connected_users a = some na)
    (hroom : (rid, ps) ∈ st.active_rooms) (hain : a ∈ ps) (hbin : b ∈ ps) (hba : b ≠ a) :
    (handle_disconnect st a).2.filter
        (fun e => e.event == "call_ended" && e.dest == Dest.sid b) =
      [callEndedDisconnect "Someone" b] ∧
    dictLookup (handle_disconnect st a).1.active_rooms rid = none ∧
    (∀ x, handle_accept_call (handle_disconnect st a).1 x (some rid) =
      ((handle_disconnect st a).1,
       [{ event := "call_error", dest := Dest.sid x
          payload := [("error", PVal.str "Call no longer exists")] }])) := by
  obtain ⟨hndu, hndr, hshape⟩ := hwf
  have hknd : ((st.active_rooms.filter (fun p => p.2.contains a)).map Prod.fst).Nodup :=
    ((List.filter_sublist _).map Prod.fst).nodup hndr
  obtain ⟨hst, hem⟩ := cleanupRoomsLoop_spec a
    ((st.active_rooms.filter (fun p => p.2.contains a)).map Prod.fst)
    { st with connected_users := dictErase st.connected_users a } hknd
  have hridks : rid ∈ (st.active_rooms.filter (fun p => p.2.contains a)).map Prod.fst :=
    List.mem_map_of_mem Prod.fst
      (List.mem_filter.mpr ⟨hroom, List.elem_eq_true_of_mem hain⟩)
  have hnone : dictLookup (handle_disconnect st a).1.active_rooms rid = none := by
    simp only [handle_disconnect, hreg, cleanup_user_rooms]
    rw [hst]
    exact dictLookup_filter_excluded _ _ _ hridks
  refine ⟨?_, hnone, ?_⟩
  · simp only [handle_disconnect, hreg, cleanup_user_rooms]
    rw [hem]
    rw [dictLookup_dictErase_self]
    rw [List.filter_append, List.filter_cons_of_neg (by simp),
      List.filter_cons_of_neg (by simp [broadcast_user_list]),
      List.filter_nil, List.nil_append]
    exact filter_callEnded_ks st a b ((none : Option String).getD "Someone") hndr hshape
      rid ps hroom hain hbin hba
  · intro x
    simp only [handle_accept_call, hnone]

/-- Witness for C6 at a concrete input: Alice (sid `"sa"`) and Bob
(sid `"sb"`) share the room keyed by `roomId "sa" "sb"`; Alice
disconnects; Bob gets the single `call_ended{reason:"disconnected"}`. -/
theorem c6_disconnect_ends_session_witness :
    (StateWF ⟨[("sa", "Alice"), ("sb", "Bob")], [(roomId "sa" "sb", ["sa", "sb"])]⟩ ∧
      dictLookup [("sa", "Alice"), ("sb", "Bob")] "sa" = some "Alice") ∧
    (handle_disconnect ⟨[("sa", "Alice"), ("sb", "Bob")],
        [(roomId "sa" "sb", ["sa", "sb"])]⟩ "sa").2.filter
        (fun e => e.event == "call_ended" && e.dest == Dest.sid "sb") =
      [callEndedDisconnect "Someone" "sb"] :=
  ⟨⟨by decide, by decide⟩,
    (c6_disconnect_ends_session ⟨[("sa", "Alice"), ("sb", "Bob")],
        [(roomId "sa" "sb", ["sa", "sb"])]⟩ "sa" "sb" "Alice" (roomId "sa" "sb")
      ["sa", "sb"] (by decide) (by decide) (by decide) (by decide) (by decide)
      (by decide)).1⟩

/-- **C10** (confirmed): at most one session per unordered pair — in
every well-formed state, two room entries sharing the same two distinct
participants coincide; and a repeated `call_user` between the same two
registered connections, in the reverse direction, overwrites the
session-table entry for that pair (same table size, value replaced by
the new `[caller, target]` list) instead of creating a second entry. -/
theorem c10_pair_unique_overwrite (st : ServerState) (hwf : StateWF st)
    (a b : String) (hab : a ≠ b) :
    (∀ k1 k2 ps1 ps2, (k1, ps1) ∈ st.active_rooms → (k2, ps2) ∈ st.active_rooms →
      a ∈ ps1 → b ∈ ps1 → a ∈ ps2 → b ∈ ps2 → k1 = k2 ∧ ps1 = ps2) ∧
    (∀ na nb, dictLookup st.connected_users a = some na →
      dictLookup st.connected_users b = some nb →
      dictContains st.active_rooms (roomId a b) = true →
      (handle_call_user st b (some a)).1.active_rooms.length = st.active_rooms.length ∧
      dictLookup (handle_call_user st b (some a)).1.active_rooms (roomId a b) =
        some [b, a]) := by
  obtain ⟨hndu, hndr, hshape⟩ := hwf
  constructor
  · intro k1 k2 ps1 ps2 h1 h2 ha1 hb1 ha2 hb2
    have hk1 : k1 = roomId a b := roomEntry_key_of_pair (k1, ps1) (hshape _ h1) ha1 hb1 hab
    have hk2 : k2 = roomId a b := roomEntry_key_of_pair (k2, ps2) (hshape _ h2) ha2 hb2 hab
    have hk : k1 = k2 := hk1.trans hk2.symm
    refine ⟨hk, ?_⟩
    subst hk
    have hl1 : dictLookup st.active_rooms k1 = some ps1 := dictLookup_of_mem_nodup _ hndr h1
    have hl2 : dictLookup st.active_rooms k1 = some ps2 := dictLookup_of_mem_nodup _ hndr h2
    rw [hl1] at hl2
    exact Option.some.inj hl2
  · intro na nb h1 h2 hcont
    have hba : ¬ b = a := fun h => hab h.symm
    have hbody : (handle_call_user st b (some a)).1.active_rooms =
        dictInsert st.active_rooms (roomId b a) [b, a] := by
      simp only [handle_call_user, h1, h2, if_neg hba]
    constructor
    · rw [hbody, roomId_comm]
      exact dictInsert_length_of_contains _ _ _ hcont
    · rw [hbody, roomId_comm b a]
      exact dictLookup_dictInsert_self _ _ _

/-- Witness for C10 at a concrete input: with the pair (`"sa"`, `"sb"`)
already in a session created by `"sa"` calling `"sb"`, the reverse call
`"sb"` → `"sa"` keeps the table at one entry. -/
theorem c10_pair_unique_overwrite_witness :
    (StateWF ⟨[("sa", "Alice"), ("sb", "Bob")], [(roomId "sa" "sb", ["sa", "sb"])]⟩ ∧
      ("sa" : String) ≠ "sb" ∧
      dictContains [(roomId "sa" "sb", ["sa", "sb"])] (roomId "sa" "sb") = true) ∧
    (handle_call_user ⟨[("sa", "Alice"), ("sb", "Bob")],
        [(roomId "sa" "sb", ["sa", "sb"])]⟩ "sb" (some "sa")).1.active_rooms.length =
      ([(roomId "sa" "sb", ["sa", "sb"])] : List (String × List String)).length :=
  ⟨⟨by decide, by decide, by decide⟩,
    ((c10_pair_unique_overwrite ⟨[("sa", "Alice"), ("sb", "Bob")],
        [(roomId "sa" "sb", ["sa", "sb"])]⟩ (by decide) "sa" "sb" (by decide)).2
      "Alice" "Bob" (by decide) (by decide) (by decide)).1⟩

/-- Witness for C9 at a concrete input: registering `"  Alice  "` over
an existing entry stores the trimmed `"Alice"`. -/
theorem c9_register_normalizes_witness :
    (((ServerState.mk [("s1", "Old")] []).connected_users.map Prod.fst).Nodup) ∧
    dictLookup (handle_register ⟨[("s1", "Old")], []⟩ "s1" (some "  Alice  ")).1.connected_users
        "s1" =
      some (if (pyStrip "  Alice  ") = "" ∨ (pyStrip "  Alice  ").length > 30 then "Anonymous"
        else (pyStrip "  Alice  ")) :=
  ⟨by decide, (c9_register_normalizes ⟨[("s1", "Old")], []⟩ "s1" "  Alice  " (by decide)).1⟩

/-- **C1** (code_bug): the busy guard claimed by the spec is absent from
`handle_call_user`.  At the failing input — `"sa"` (Alice) is already in
the session with `"sb"` (Bob) and calls `"sc"` (Carol) — the handler
creates a second session containing `"sa"`, emits `incoming_call` and
`call_initiated` but no `call_error`, and the resulting state violates
the session-pairing invariant (two distinct active sessions share
participant `"sa"`). -/
theorem c1_busy_guard_missing :
    (handle_call_user ⟨[("sa", "Alice"), ("sb", "Bob"), ("sc", "Carol")],
        [(roomId "sa" "sb", ["sa", "sb"])]⟩ "sa" (some "sc")).1.active_rooms =
      [(roomId "sa" "sb", ["sa", "sb"]), (roomId "sa" "sc", ["sa", "sc"])] ∧
    (∀ e ∈ (handle_call_user ⟨[("sa", "Alice"), ("sb", "Bob"), ("sc", "Carol")],
        [(roomId "sa" "sb", ["sa", "sb"])]⟩ "sa" (some "sc")).2,
      e.event ≠ "call_error") := by
  decide

/-- **C2** (code_bug): an `initiateCall` failure can leave the session
table changed.  At the failing input — the caller `"ghost"` is connected
but never registered and calls the registered `"sb"` — the offline and
self-call guards pass, the session entry is inserted, and only then does
`connected_users[caller_sid]` raise `KeyError`, so the handler emits a
`call_error` to the caller *and* leaves the newly created session entry
in the table, contradicting "no session entry is created or modified on
the error path". -/
theorem c2_error_path_creates_session :
    (∃ e ∈ (handle_call_user ⟨[("sb", "Bob")], []⟩ "ghost" (some "sb")).2,
      e.event = "call_error") ∧
    (handle_call_user ⟨[("sb", "Bob")], []⟩ "ghost" (some "sb")).1.active_rooms =
      [(roomId "ghost" "sb", ["ghost", "sb"])] := by
  decide

/-- **C3** (code_bug): a directed `send_message` whose target is not
registered is *broadcast*, not dropped.  At the failing input — the
registered `"sa"` (Alice) sends `"hi"` to the vanished sid `"gone"` —
the target guard `target_sid and target_sid in connected_users` fails
and control falls into the `else` branch, which broadcasts the message
to every connection with `private: False`, contradicting the claimed
silent drop. -/
theorem c3_vanished_target_broadcasts :
    handle_send_message ⟨[("sa", "Alice")], []⟩ "sa" (some "gone") (some "hi") =
      [{ event := "receive_message", dest := Dest.all
         payload := [("sender_sid", PVal.str "sa"), ("sender_name", PVal.str "Alice"),
                     ("message", PVal.str "hi"), ("private", PVal.bool false)] }] := by
  decide

/-- **C4 counterexample**: the claim "a non-participant accepter never
produces a successful acceptance" is false — the registered `"sc"`
(Carol), who is not a participant of the session between `"sa"` and
`"sb"`, sends `accept_call` for it and the handler emits `call_accepted`
to the session's room. -/
theorem c4_counterexample_nonparticipant_accepts :
    (handle_accept_call ⟨[("sa", "Alice"), ("sb", "Bob"), ("sc", "Carol")],
        [(roomId "sa" "sb", ["sa", "sb"])]⟩ "sc" (some (roomId "sa" "sb"))).2 =
      [{ event := "call_accepted", dest := Dest.callRoom (roomId "sa" "sb")
         payload := [("accepter_sid", PVal.str "sc"), ("accepter_name", PVal.str "Carol"),
                     ("room_id", PVal.str (roomId "sa" "sb"))] }] := by
  decide

/-- **C4** (corrected, amended claim): `handle_accept_call` emits a
single `call_accepted` to the session's room whenever the session
exists, the room's two-member list has a member other than the
accepter, and the accepter is registered — participation of the
accepter is *not* checked; when the session id is unknown the accepter
gets the `call_error "Call no longer exists"`; and the handler never
modifies the state (no Ringing/Active distinction is tracked). -/
theorem c4_accept_call_amended (st : ServerState) (acc rid : String) :
    (dictLookup st.active_rooms rid = none →
      handle_accept_call st acc (some rid) =
        (st, [{ event := "call_error", dest := Dest.sid acc
                payload := [("error", PVal.str "Call no longer exists")] }])) ∧
    (∀ u v name, dictLookup st.active_rooms rid = some [u, v] →
      (u ≠ acc ∨ v ≠ acc) →
      dictLookup st.connected_users acc = some name →
      (handle_accept_call st acc (some rid)).2 =
        [{ event := "call_accepted", dest := Dest.callRoom rid
           payload := [("accepter_sid", PVal.str acc), ("accepter_name", PVal.str name),
                       ("room_id", PVal.str rid)] }]) ∧
    (handle_accept_call st acc (some rid)).1 = st := by
  refine ⟨?_, ?_, ?_⟩
  · intro h
    simp only [handle_accept_call, h]
  · intro u v name hlk hne hnm
    obtain ⟨c, cs, hc⟩ : ∃ c cs, List.filter (fun x => x ≠ acc) [u, v] = c :: cs := by
      by_cases hu : u = acc
      · have hv : v ≠ acc := by
          rcases hne with h | h
          · exact absurd hu h
          · exact h
        exact ⟨v, [], by simp [List.filter_cons, hu, hv]⟩
      · exact ⟨u, List.filter (fun x => x ≠ acc) [v], by simp [List.filter_cons, hu]⟩
    simp only [handle_accept_call, hlk, hc, hnm]
  · simp only [handle_accept_call]
    repeat' split
    all_goals rfl

/-- Witness for the amended C4 at a concrete input: the participant
`"sb"` accepts the session with `"sa"` and `call_accepted` goes to the
session room. -/
theorem c4_accept_call_amended_witness :
    (handle_accept_call ⟨[("sa", "Alice"), ("sb", "Bob")], [(roomId "sa" "sb", ["sa", "sb"])]⟩
        "sb" (some (roomId "sa" "sb"))).2 =
      [{ event := "call_accepted", dest := Dest.callRoom (roomId "sa" "sb")
         payload := [("accepter_sid", PVal.str "sb"), ("accepter_name", PVal.str "Bob"),
                     ("room_id", PVal.str (roomId "sa" "sb"))] }] :=
  (c4_accept_call_amended ⟨[("sa", "Alice"), ("sb", "Bob")],
      [(roomId "sa" "sb", ["sa", "sb"])]⟩ "sb" (roomId "sa" "sb")).2.1 "sa" "sb" "Bob"
    (by decide) (Or.inl (by decide)) (by decide)

/-- **C5 counterexample**: the claim that every relayed payload event
carries the sender's display name is false for `answer` — relayed to a
registered target, the emitted payload has no `sender_name` field at
all (only `answer` and `sender_sid`). -/
theorem c5_counterexample_answer_lacks_sender_name :
    (handle_answer ⟨[("sb", "Bob")], []⟩ "sa" (some "sb") (PVal.str "sdp") ≠ []) ∧
    (∀ e ∈ handle_answer ⟨[("sb", "Bob")], []⟩ "sa" (some "sb") (PVal.str "sdp"),
      ∀ kv ∈ e.payload, kv.1 ≠ "sender_name") := by
  decide

/-- **C5** (corrected, amended claim): each relay handler delivers the
opaque payload to the target only — `offer` together with the sender's
sid *and* display name (and silently drops the event when the sender is
unregistered), while `answer` and `ice_candidate` carry only the
sender's sid; when the target is absent, empty, or not registered,
nothing is emitted to anyone. -/
theorem c5_relay_amended (st : ServerState) (s t : String) (pl : PVal) :
    (∀ name, t ≠ "" → dictContains st.connected_users t = true →
      dictLookup st.connected_users s = some name →
      handle_offer st s (some t) pl =
        [{ event := "offer", dest := Dest.sid t
           payload := [("offer", pl), ("sender_sid", PVal.str s),
                       ("sender_name", PVal.str name)] }]) ∧
    (dictLookup st.connected_users s = none → handle_offer st s (some t) pl = []) ∧
    (t ≠ "" → dictContains st.connected_users t = true →
      handle_answer st s (some t) pl =
        [{ event := "answer", dest := Dest.sid t
           payload := [("answer", pl), ("sender_sid", PVal.str s)] }] ∧
      handle_ice_candidate st s (some t) pl =
        [{ event := "ice_candidate", dest := Dest.sid t
           payload := [("candidate", pl), ("sender_sid", PVal.str s)] }]) ∧
    (¬(t ≠ "" ∧ dictContains st.connected_users t = true) →
      handle_offer st s (some t) pl = [] ∧ handle_answer st s (some t) pl = [] ∧
      handle_ice_candidate st s (some t) pl = []) ∧
    handle_offer st s none pl = [] ∧ handle_answer st s none pl = [] ∧
    handle_ice_candidate st s none pl = [] := by
  refine ⟨?_, ?_, ?_, ?_, rfl, rfl, rfl⟩
  · intro name h1 h2 h3
    simp only [handle_offer, if_pos (show t ≠ "" ∧ dictContains st.connected_users t = true
      from ⟨h1, h2⟩), h3]
  · intro h3
    simp only [handle_offer]
    split
    · simp only [h3]
    · rfl
  · intro h1 h2
    constructor
    · simp only [handle_answer, if_pos (show t ≠ "" ∧ dictContains st.connected_users t = true
        from ⟨h1, h2⟩)]
    · simp only [handle_ice_candidate,
        if_pos (show t ≠ "" ∧ dictContains st.connected_users t = true from ⟨h1, h2⟩)]
  · intro h
    refine ⟨?_, ?_, ?_⟩
    · simp only [handle_offer, if_neg h]
    · simp only [handle_answer, if_neg h]
    · simp only [handle_ice_candidate, if_neg h]

/-- Witness for the amended C5 at a concrete input: an offer from the
registered `"sa"` to the registered `"sb"` is delivered to `"sb"` only,
with sid and display name. -/
theorem c5_relay_amended_witness :
    handle_offer ⟨[("sa", "Alice"), ("sb", "Bob")], []⟩ "sa" (some "sb") (PVal.str "sdp") =
      [{ event := "offer", dest := Dest.sid "sb"
         payload := [("offer", PVal.str "sdp"), ("sender_sid", PVal.str "sa"),
                     ("sender_name", PVal.str "Alice")] }] :=
  (c5_relay_amended ⟨[("sa", "Alice"), ("sb", "Bob")], []⟩ "sa" "sb" (PVal.str "sdp")).1
    "Alice" (by decide) (by decide) (by decide)

end Yumee
